import Mathlib

/-!
Verification of the urban-meal-delivery core specification.

A shallow embedding, in Lean 4, of the core components of the
`urban-meal-delivery` package: geo-projection, grid and pixel index,
time-series aggregation, additive multi-seasonal decomposition, and
the naive-seasonal forecasting model, together with theorems settling
the testable properties stated for them.

The repository snapshot at hand ships only documentation, configuration
and research notebooks; the Python modules implementing the core
(`db/grids.py`, `forecasts/timify.py`, `forecasts/methods/decomposition.py`,
`forecasts/models/`, `db/addresses_addresses.py`) are not present.  Every
definition below is therefore modelled from the specification's words (and,
for gridification and `Path.from_addresses`, from the README and notebook
documentation contained in the repository), as faithfully as the available
material allows.  All arithmetic is carried out over `ℚ`, so the
floating-point tolerances of the specification are met exactly.
-/

namespace UrbanMealDelivery

/-- Modelled from the spec: a planar (x, y) pair in a fixed-zone projected
system, produced only via the Geo-Projection (spec §3 "Coordinate"). -/
structure Coordinate where
  x : ℚ
  y : ℚ
deriving DecidableEq, Repr

/-- Modelled from the spec: the parameters of the supported projection zone
of the Geo-Projection component (spec §4.1); the missing source module is the
UTM-based `Location` code.  The zone holds the supported latitude/longitude
box, a reference point, and the local meters-per-degree scale factors of the
planar, distance-preserving coordinate system (spec §2, component 1). -/
structure Zone where
  latMin : ℚ
  latMax : ℚ
  lonMin : ℚ
  lonMax : ℚ
  lat0 : ℚ
  lon0 : ℚ
  mPerDegLat : ℚ
  mPerDegLon : ℚ
deriving DecidableEq, Repr

/-- Modelled from the spec: whether a latitude/longitude pair lies within
the supported projection zone (spec §4.1 "input must lie within the
supported projection zone"). -/
abbrev Zone.contains (z : Zone) (lat lon : ℚ) : Prop :=
  z.latMin ≤ lat ∧ lat ≤ z.latMax ∧ z.lonMin ≤ lon ∧ lon ≤ z.lonMax

/-- Modelled from the spec: the error kinds of the core (spec §7). -/
inductive CoreError where
  | projectionError
  | configurationError
  | insufficientHistoryError
deriving DecidableEq, Repr

/-- Modelled from the spec: `project(latitude, longitude) -> Coordinate`;
out-of-zone input fails with a `ProjectionError` (spec §4.1).  The planar
system maps degrees to meters with the zone's fixed scale factors. -/
def project (z : Zone) (lat lon : ℚ) : Except CoreError Coordinate :=
  if z.contains lat lon then
    Except.ok ⟨(lon - z.lon0) * z.mPerDegLon, (lat - z.lat0) * z.mPerDegLat⟩
  else
    Except.error CoreError.projectionError

/-- Modelled from the spec: `unproject(Coordinate) -> (latitude, longitude)`,
the inverse direction of the Geo-Projection (spec §4.1). -/
def unproject (z : Zone) (c : Coordinate) : ℚ × ℚ :=
  (c.y / z.mPerDegLat + z.lat0, c.x / z.mPerDegLon + z.lon0)

/-- The round-trip error of project/unproject, measured in meters: the
latitude and longitude discrepancies scaled back to planar meters. -/
def roundTripErrorMeters (z : Zone) (lat lon : ℚ) (c : Coordinate) : ℚ :=
  |((unproject z c).1 - lat) * z.mPerDegLat| + |((unproject z c).2 - lon) * z.mPerDegLon|

/-- Modelled from the spec: a Grid, identified by (city, side-length), with
an origin offset anchored at the boundary's minimum corner (spec §3 "Grid",
§4.2); the missing source module is `db/grids.py`. -/
structure Grid where
  xMin : ℚ
  yMin : ℚ
  side : ℚ
deriving DecidableEq, Repr

/-- Modelled from the spec: `locate(Coordinate) -> (row, column)`, a pure
arithmetic operation — integer division by side-length after offset, with
the closed-open interval convention (spec §4.2). -/
def Grid.locate (g : Grid) (c : Coordinate) : ℤ × ℤ :=
  (⌊(c.y - g.yMin) / g.side⌋, ⌊(c.x - g.xMin) / g.side⌋)

/-- Modelled from the spec: a cell of the Pixel Index — a (row, column) key
together with the identifiers of the locations that fall inside it
(spec §3 "Pixel", §4.3); the missing source module is `db/pixels.py`. -/
abbrev Cell := (ℤ × ℤ) × List ℕ

/-- Insert one location identifier into the association list of cells:
either cons it onto the cell already holding its key, or materialize a new
cell for that key (a cell comes into being only through such an insert). -/
def insertLoc : List Cell → ℤ × ℤ → ℕ → List Cell
  | [], key, i => [(key, [i])]
  | c :: cs, key, i =>
      if c.1 = key then (c.1, i :: c.2) :: cs else c :: insertLoc cs key i

/-- Modelled from the spec: the cells of `index(grid, locations)` — each
location of the lazy sequence is located once and recorded in its cell
(spec §4.3, linear in the number of locations). -/
def buildCells (g : Grid) : List (ℕ × Coordinate) → List Cell
  | [] => []
  | l :: ls => insertLoc (buildCells g ls) (g.locate l.2) l.1

/-- Modelled from the spec: `index(grid, locations) -> PixelIndex`, the set
of distinct non-empty Pixels, each recording which location identifiers fall
inside it (spec §4.3). -/
structure PixelIndex where
  grid : Grid
  cells : List Cell
deriving Repr

/-- Modelled from the spec: the Pixel-Index construction entry point. -/
def buildIndex (g : Grid) (locs : List (ℕ × Coordinate)) : PixelIndex :=
  ⟨g, buildCells g locs⟩

/-- The (row, column) keys of the pixels present in an index. -/
def PixelIndex.keys (idx : PixelIndex) : List (ℤ × ℤ) :=
  idx.cells.map Prod.fst

/-- All location identifiers assigned to some pixel of the index. -/
def PixelIndex.assignedIds (idx : PixelIndex) : List ℕ :=
  (idx.cells.map Prod.snd).flatten

/-- Modelled from the spec: `neighbors(pixel)` returns the (up to 8)
adjacent cells that are also non-empty; a pixel with no non-empty neighbor
yields an empty list, never an error (spec §4.3). -/
def PixelIndex.neighbors (idx : PixelIndex) (key : ℤ × ℤ) : List (ℤ × ℤ) :=
  ([(-1, -1), (-1, 0), (-1, 1), (0, -1), (0, 1), (1, -1), (1, 0), (1, 1)] :
      List (ℤ × ℤ)).filterMap fun d =>
    let k := (key.1 + d.1, key.2 + d.2)
    if k ∈ idx.keys then some k else none

/-- Minutes in a calendar day, anchoring consecutive operating days. -/
def minutesPerDay : ℕ := 1440

/-- Modelled from the spec: the configuration of the Time Series Aggregator
(spec §4.4) — the `date_range` (first day and number of days), the
configurable start-of-day offset, the operating-day length implied by the
calendar, and the bucket length, all in minutes; the missing source module
is `forecasts/timify.py`. -/
structure AggConfig where
  firstDay : ℕ
  numDays : ℕ
  startOfDayOffset : ℕ
  dayLength : ℕ
  bucketLength : ℕ
deriving DecidableEq, Repr

/-- The number of buckets per operating day. -/
def AggConfig.perDay (cfg : AggConfig) : ℕ :=
  cfg.dayLength / cfg.bucketLength

/-- The number of buckets covered by the `date_range`. -/
def AggConfig.numBuckets (cfg : AggConfig) : ℕ :=
  cfg.numDays * cfg.perDay

/-- The start minute (since the epoch) of the `i`-th bucket of the range:
buckets are laid out day by day, each operating day starting
`startOfDayOffset` minutes after midnight (spec §3 "Time Bucket"). -/
def AggConfig.bucketStart (cfg : AggConfig) (i : ℕ) : ℕ :=
  (cfg.firstDay + i / cfg.perDay) * minutesPerDay + cfg.startOfDayOffset +
    (i % cfg.perDay) * cfg.bucketLength

/-- Whether a timestamp falls into the left-closed, right-open bucket that
starts at minute `s` (spec §3 "Time Bucket"). -/
def AggConfig.inBucket (cfg : AggConfig) (s t : ℕ) : Bool :=
  decide (s ≤ t ∧ t < s + cfg.bucketLength)

/-- The start minutes of all buckets of the `date_range`, in order. -/
def AggConfig.bucketStarts (cfg : AggConfig) : List ℕ :=
  (List.range cfg.numBuckets).map cfg.bucketStart

/-- Whether a timestamp falls into some bucket of the `date_range`. -/
def AggConfig.inDateRange (cfg : AggConfig) (t : ℕ) : Bool :=
  cfg.bucketStarts.any fun s => cfg.inBucket s t

/-- Modelled from the spec: `aggregate(pixel, orders, bucket_length,
start_of_day_offset, date_range) -> Order Time Series` (spec §4.4).  The
orders are a sequence of timestamps (already restricted to a single pixel
by the caller); the result pairs every bucket of the range with its order
count, zero-filling buckets that receive no orders.  It fails with a
`ConfigurationError` if the bucket length does not evenly divide the
operating day length, and never silently corrects the bucket length. -/
def aggregate (cfg : AggConfig) (orders : List ℕ) :
    Except CoreError (List (ℕ × ℕ)) :=
  if cfg.bucketLength ∣ cfg.dayLength then
    Except.ok (cfg.bucketStarts.map fun s =>
      (s, (orders.filter fun t => cfg.inBucket s t).length))
  else
    Except.error CoreError.configurationError

/-- The arithmetic mean of a list of rationals (0 for the empty list). -/
def mean (xs : List ℚ) : ℚ := xs.sum / xs.length

/-- Modelled from the spec: the centered moving-average trend of a series
for cycle length `p`, the window clamped at the series edges (spec §4.5
"estimate a centered moving-average trend"); the missing source module is
`forecasts/methods/decomposition.py`. -/
def movingAvg (p : ℕ) (s : List ℚ) : List ℚ :=
  let n := s.length
  let w := p / 2
  (List.range n).map fun t =>
    let lo := t - w
    let hi := min (t + w) (n - 1)
    mean ((List.range (hi + 1 - lo)).map fun k => s.getD (lo + k) 0)

/-- Modelled from the spec: the seasonal profile of cycle length `p` —
the detrended remainder averaged by phase within the cycle (spec §4.5
"average the remainder by phase-within-cycle"). -/
def seasonalProfile (p : ℕ) (detrended : List ℚ) : List ℚ :=
  (List.range p).map fun phase =>
    mean ((detrended.enum.filter fun e => e.1 % p == phase).map Prod.snd)

/-- The seasonal profile broadcast over `n` buckets by phase. -/
def seasonalSeries (p : ℕ) (profile : List ℚ) (n : ℕ) : List ℚ :=
  (List.range n).map fun t => profile.getD (t % p) 0

/-- Modelled from the spec: one seasonal pass of the iterative decomposition
for periodicity `p`: estimate the trend, subtract it, average by phase, and
remove the resulting seasonal component; a periodicity is skipped (profile
all zeros) if the series is shorter than two full cycles — degrading
gracefully instead of failing (spec §4.5).  Returns the seasonal component
series and the de-seasonalized series. -/
def decomposeStep (s : List ℚ) (p : ℕ) : List ℚ × List ℚ :=
  if s.length < 2 * p ∨ p = 0 then
    (List.replicate s.length 0, s)
  else
    let trend := movingAvg p s
    let detrended := List.zipWith (· - ·) s trend
    let profile := seasonalProfile p detrended
    let seas := seasonalSeries p profile s.length
    (seas, List.zipWith (· - ·) s seas)

/-- The iterated seasonal passes, evaluated in the order of the given
periodicities, each pass removing its component before the next one is
estimated (spec §4.5): returns the seasonal component series, in input
order, and the fully de-seasonalized series. -/
def seasComps : List ℚ → List ℕ → List (List ℚ) × List ℚ
  | s, [] => ([], s)
  | s, p :: ps =>
      let step := decomposeStep s p
      let rest := seasComps step.2 ps
      (step.1 :: rest.1, rest.2)

/-- Modelled from the spec: the Decomposition Result — level, seasonal
components in input order, and residual aligned bucket-for-bucket with the
input (spec §3 "Decomposition Result"). -/
structure DecompositionResult where
  level : ℚ
  seasonals : List (List ℚ)
  residual : List ℚ
deriving Repr

/-- Modelled from the spec: `decompose(series, periodicities)` — iterative
additive multi-seasonal decomposition; the level is the long-run mean of the
de-seasonalized series and the residual is its remaining variation
(spec §4.5). -/
def decompose (s : List ℚ) (ps : List ℕ) : DecompositionResult :=
  let c := seasComps s ps
  let lv := mean c.2
  ⟨lv, c.1, c.2.map fun x => x - lv⟩

/-- The mean absolute value of a list of rationals — the empirical spread
of the residual distribution used for prediction intervals. -/
def meanAbs (xs : List ℚ) : ℚ := mean (xs.map fun x => |x|)

/-- Modelled from the spec: the fitted state of the naive-seasonal
forecasting model (spec §4.6 "fit(Order Time Series) -> model state");
the missing source modules are `forecasts/models/`. -/
structure ModelState where
  history : List ℚ
  periodicity : ℕ
  level : ℚ
  seasonal : List ℚ
  residuals : List ℚ
deriving Repr

/-- Modelled from the spec: `fit` of the naive-seasonal model — decompose
the series at the needed seasonal periodicity and keep the level, the
seasonal component and the residuals (spec §4.6 "Naive-seasonal"). -/
def fit (series : List ℚ) (p : ℕ) : ModelState :=
  let d := decompose series [p]
  ⟨series, p, d.level, d.seasonals.getD 0 [], d.residual⟩

/-- Modelled from the spec: `predict(model state, origin bucket, horizon)
-> (point, lower, upper)` (spec §4.6): fails with an
`InsufficientHistoryError` if the fitted series does not cover two full
cycles of the needed seasonal periodicity; otherwise the point forecast is
level plus the seasonal component at the target bucket's phase, clipped at
zero (demand cannot be negative), with a two-sided interval spanning the
residual spread scaled by the confidence factor `z`. -/
def predict (m : ModelState) (origin horizon : ℕ) (z : ℚ) :
    Except CoreError (ℚ × ℚ × ℚ) :=
  if m.history.length < 2 * m.periodicity ∨ m.periodicity = 0 then
    Except.error CoreError.insufficientHistoryError
  else
    let phase := (origin + horizon) % m.periodicity
    let point := max (m.level + m.seasonal.getD phase 0) 0
    let halfwidth := z * meanAbs m.residuals
    Except.ok (point, point - halfwidth, point + halfwidth)

/-- Modelled from the spec and the repository README: the role of an
address — a restaurant pickup location or a customer delivery location
(README "each *pickup* location is assigned into a pixel", gridification
notebook "Put all restaurant locations in pixels"); the missing source
module is `db/grids.py` (`Grid.gridify`). -/
inductive AddressRole where
  | restaurantPickup
  | customerDelivery
deriving DecidableEq, Repr

/-- An address of a city: an identifier, its role, and its projected
location. -/
structure Address where
  ident : ℕ
  role : AddressRole
  coord : Coordinate
deriving DecidableEq, Repr

/-- Whether an address is a restaurant pickup location. -/
def Address.isPickup (a : Address) : Bool :=
  a.role == AddressRole.restaurantPickup

/-- Modelled from the spec and the repository README: gridification — only
the city's pickup (restaurant) locations are assigned into pixels; customer
delivery addresses take no part (README §"Tactical Demand Forecasting",
gridification notebook output "assigned 358 out of 48058 addresses"). -/
def gridify (g : Grid) (addrs : List Address) : PixelIndex :=
  buildIndex g ((addrs.filter Address.isPickup).map fun a => (a.ident, a.coord))

/-- Modelled from the repository notebook `research/08_google_maps.ipynb`:
a `Path` connects two `Address` objects of a symmetric distance matrix; the
endpoints are called first and second, not restaurant and customer; the
missing source module is `db/addresses_addresses.py`. -/
structure Path where
  first_address : Address
  second_address : Address
deriving DecidableEq, Repr

/-- Modelled from the repository notebook: `Path.from_addresses` takes any
number of `Address` objects and creates all entries of a symmetric distance
matrix as `Path` objects — one per unordered pair of distinct inputs. -/
def Path.from_addresses : List Address → List Path
  | [] => []
  | a :: rest => (rest.map fun b => ⟨a, b⟩) ++ Path.from_addresses rest

/-- Whether a path connects the unordered pair `{a, b}`. -/
def Path.connects (p : Path) (a b : Address) : Bool :=
  (p.first_address == a && p.second_address == b) ||
    (p.first_address == b && p.second_address == a)

lemma Grid.locate_fst (g : Grid) (c : Coordinate) :
    (g.locate c).1 = ⌊(c.y - g.yMin) / g.side⌋ := rfl

lemma Grid.locate_snd (g : Grid) (c : Coordinate) :
    (g.locate c).2 = ⌊(c.x - g.xMin) / g.side⌋ := rfl

/-- Helper: the floor of `(k * s) / s` is `k` itself when `s > 0`. -/
lemma floor_intCast_mul_div {s : ℚ} (hs : 0 < s) (k : ℤ) :
    ⌊((k : ℚ) * s) / s⌋ = k := by
  rw [mul_div_assoc, div_self (ne_of_gt hs), mul_one, Int.floor_intCast]

lemma insertLoc_keys_mem (cells : List Cell) (key : ℤ × ℤ) (i : ℕ) (k : ℤ × ℤ) :
    k ∈ (insertLoc cells key i).map Prod.fst ↔ k = key ∨ k ∈ cells.map Prod.fst := by
  induction cells with
  | nil => simp [insertLoc, eq_comm]
  | cons c cs ih =>
      simp only [insertLoc]
      by_cases h : c.1 = key
      · rw [if_pos h]
        simp only [List.map_cons, List.mem_cons, h]
        tauto
      · rw [if_neg h]
        simp only [List.map_cons, List.mem_cons, ih]
        tauto

lemma insertLoc_ids_mem (cells : List Cell) (key : ℤ × ℤ) (i : ℕ) (j : ℕ) :
    j ∈ ((insertLoc cells key i).map Prod.snd).flatten ↔
      j = i ∨ j ∈ (cells.map Prod.snd).flatten := by
  induction cells with
  | nil => simp [insertLoc, eq_comm]
  | cons c cs ih =>
      simp only [insertLoc]
      by_cases h : c.1 = key
      · rw [if_pos h]
        simp only [List.map_cons, List.flatten_cons, List.mem_append, List.mem_cons]
        tauto
      · rw [if_neg h]
        simp only [List.map_cons, List.flatten_cons, List.mem_append, ih]
        tauto

lemma insertLoc_ids_length (cells : List Cell) (key : ℤ × ℤ) (i : ℕ) :
    ((insertLoc cells key i).map Prod.snd).flatten.length =
      (cells.map Prod.snd).flatten.length + 1 := by
  induction cells with
  | nil => simp [insertLoc]
  | cons c cs ih =>
      simp only [insertLoc]
      by_cases h : c.1 = key
      · rw [if_pos h]
        simp only [List.map_cons, List.flatten_cons, List.length_append,
          List.length_cons]
        omega
      · rw [if_neg h]
        simp only [List.map_cons, List.flatten_cons, List.length_append, ih]
        omega

lemma insertLoc_cells_nonempty (cells : List Cell) (key : ℤ × ℤ) (i : ℕ)
    (h : ∀ c ∈ cells, c.2 ≠ []) :
    ∀ c ∈ insertLoc cells key i, c.2 ≠ [] := by
  induction cells with
  | nil =>
      intro c hc
      simp only [insertLoc, List.mem_singleton] at hc
      subst hc
      simp
  | cons c0 cs ih =>
      intro c hc
      by_cases hk : c0.1 = key
      · simp only [insertLoc, if_pos hk, List.mem_cons] at hc
        rcases hc with rfl | hc
        · simp
        · exact h c (List.mem_cons_of_mem _ hc)
      · simp only [insertLoc, if_neg hk, List.mem_cons] at hc
        rcases hc with rfl | hc
        · exact h c (List.mem_cons_self _ _)
        · exact ih (fun d hd => h d (List.mem_cons_of_mem _ hd)) c hc

lemma buildCells_keys_mem (g : Grid) (locs : List (ℕ × Coordinate)) (k : ℤ × ℤ) :
    k ∈ (buildCells g locs).map Prod.fst ↔ ∃ l ∈ locs, g.locate l.2 = k := by
  induction locs with
  | nil => simp [buildCells]
  | cons l ls ih =>
      simp only [buildCells, insertLoc_keys_mem, ih, List.mem_cons]
      constructor
      · rintro (rfl | ⟨l', hl', rfl⟩)
        · exact ⟨l, Or.inl rfl, rfl⟩
        · exact ⟨l', Or.inr hl', rfl⟩
      · rintro ⟨l', (rfl | hl'), rfl⟩
        · exact Or.inl rfl
        · exact Or.inr ⟨l', hl', rfl⟩

lemma buildCells_ids_mem (g : Grid) (locs : List (ℕ × Coordinate)) (j : ℕ) :
    j ∈ ((buildCells g locs).map Prod.snd).flatten ↔ ∃ l ∈ locs, l.1 = j := by
  induction locs with
  | nil => simp [buildCells]
  | cons l ls ih =>
      simp only [buildCells, insertLoc_ids_mem, ih, List.mem_cons]
      constructor
      · rintro (rfl | ⟨l', hl', rfl⟩)
        · exact ⟨l, Or.inl rfl, rfl⟩
        · exact ⟨l', Or.inr hl', rfl⟩
      · rintro ⟨l', (rfl | hl'), rfl⟩
        · exact Or.inl rfl
        · exact Or.inr ⟨l', hl', rfl⟩

lemma buildCells_ids_length (g : Grid) (locs : List (ℕ × Coordinate)) :
    ((buildCells g locs).map Prod.snd).flatten.length = locs.length := by
  induction locs with
  | nil => simp [buildCells]
  | cons l ls ih =>
      show ((insertLoc (buildCells g ls) (g.locate l.2) l.1).map
        Prod.snd).flatten.length = ls.length + 1
      rw [insertLoc_ids_length, ih]

lemma buildCells_nonempty (g : Grid) (locs : List (ℕ × Coordinate)) :
    ∀ c ∈ buildCells g locs, c.2 ≠ [] := by
  induction locs with
  | nil => simp [buildCells]
  | cons l ls ih => exact insertLoc_cells_nonempty _ _ _ ih

/-- Helper: consecutive buckets are at least one bucket length apart. -/
lemma bucketStart_succ_gap (cfg : AggConfig)
    (hdvd : cfg.bucketLength ∣ cfg.dayLength) (hday : cfg.dayLength ≤ minutesPerDay)
    (i : ℕ) :
    cfg.bucketStart i + cfg.bucketLength ≤ cfg.bucketStart (i + 1) := by
  set P := cfg.perDay with hP
  set L := cfg.bucketLength with hL
  rcases Nat.eq_zero_or_pos P with hP0 | hPpos
  · simp only [AggConfig.bucketStart, ← hP, ← hL, hP0, Nat.div_zero, Nat.mod_zero]
    have : (i + 1) * L = i * L + L := by ring
    omega
  · have hPL : P * L = cfg.dayLength := by
      rw [hP, AggConfig.perDay, ← hL, Nat.div_mul_cancel hdvd]
    have hqr : P * (i / P) + i % P = i := Nat.div_add_mod i P
    set q := i / P with hq
    set r := i % P with hr0
    have hr : r < P := Nat.mod_lt _ hPpos
    rcases Nat.lt_or_ge (r + 1) P with hrP | hrP
    · have hi1 : i + 1 = (r + 1) + P * q := by omega
      have hdiv' : (i + 1) / P = q := by
        rw [hi1, Nat.add_mul_div_left _ _ hPpos, Nat.div_eq_of_lt hrP,
          Nat.zero_add]
      have hmod' : (i + 1) % P = r + 1 := by
        rw [hi1, Nat.add_mul_mod_self_left, Nat.mod_eq_of_lt hrP]
      simp only [AggConfig.bucketStart, ← hP, ← hL, ← hq, ← hr0, hdiv', hmod']
      have : (r + 1) * L = r * L + L := by ring
      omega
    · have hrP' : r + 1 = P := by omega
      have hexp : P * (q + 1) = P * q + P := by ring
      have hi1 : i + 1 = P * (q + 1) := by omega
      have hdiv' : (i + 1) / P = q + 1 := by
        rw [hi1, Nat.mul_div_cancel_left _ hPpos]
      have hmod' : (i + 1) % P = 0 := by
        rw [hi1, Nat.mul_mod_right]
      simp only [AggConfig.bucketStart, ← hP, ← hL, ← hq, ← hr0, hdiv', hmod']
      have h1 : r * L + L = P * L := by
        rw [← hrP']; ring
      have h2 : (cfg.firstDay + (q + 1)) * minutesPerDay =
          (cfg.firstDay + q) * minutesPerDay + minutesPerDay := by ring
      omega

/-- Helper: earlier buckets end before later buckets begin. -/
lemma bucketStart_gap (cfg : AggConfig)
    (hdvd : cfg.bucketLength ∣ cfg.dayLength) (hday : cfg.dayLength ≤ minutesPerDay)
    {i j : ℕ} (hij : i < j) :
    cfg.bucketStart i + cfg.bucketLength ≤ cfg.bucketStart j := by
  induction j with
  | zero => omega
  | succ j ih =>
      rcases Nat.lt_or_ge i j with hij' | hij'
      · calc cfg.bucketStart i + cfg.bucketLength
            ≤ cfg.bucketStart j := ih hij'
          _ ≤ cfg.bucketStart j + cfg.bucketLength := Nat.le_add_right _ _
          _ ≤ cfg.bucketStart (j + 1) := bucketStart_succ_gap cfg hdvd hday j
      · have : i = j := by omega
        subst this
        exact bucketStart_succ_gap cfg hdvd hday i

/-- Helper: splitting a filter over a disjunction of two disjoint
(boolean) predicates splits the count. -/
lemma length_filter_or_disjoint {β : Type} (f g : β → Bool) (xs : List β)
    (h : ∀ t ∈ xs, ¬(f t = true ∧ g t = true)) :
    (xs.filter fun t => f t || g t).length =
      (xs.filter f).length + (xs.filter g).length := by
  induction xs with
  | nil => simp
  | cons x xs ih =>
      have hx := h x (List.mem_cons_self _ _)
      have ih' := ih fun t ht => h t (List.mem_cons_of_mem _ ht)
      by_cases hf : f x = true
      · have hg : ¬g x = true := fun hg => hx ⟨hf, hg⟩
        simp only [List.filter_cons, hf, hg, if_pos, if_neg, Bool.or_eq_true,
          true_or, if_true, List.length_cons, ih']
        simp [hg]
        omega
      · by_cases hg : g x = true
        · simp only [List.filter_cons, Bool.or_eq_true, hf, hg, or_true,
            if_true, List.length_cons, ih']
          simp [hf, hg]
          omega
        · simp only [List.filter_cons, Bool.or_eq_true, hf, hg, or_self,
            if_false, ih']
          simp [hf, hg, ih']

/-- Helper: for pairwise-disjoint bucket predicates, the per-bucket counts
add up to the count of elements falling into some bucket. -/
lemma sum_counts_eq_length_filter_any (keys : List ℕ) (xs : List ℕ)
    (p : ℕ → ℕ → Bool)
    (hp : keys.Pairwise fun k1 k2 => ∀ t, ¬(p k1 t = true ∧ p k2 t = true)) :
    (keys.map fun k => (xs.filter (p k)).length).sum =
      (xs.filter fun t => keys.any fun k => p k t).length := by
  induction keys with
  | nil => simp
  | cons k ks ih =>
      rcases List.pairwise_cons.mp hp with ⟨hd, htl⟩
      have step : (xs.filter fun t => p k t || ks.any fun k' => p k' t).length =
          (xs.filter (p k)).length +
            (xs.filter fun t => ks.any fun k' => p k' t).length := by
        refine length_filter_or_disjoint _ _ xs fun t _ => ?_
        rintro ⟨hkt, hany⟩
        rcases List.any_eq_true.mp hany with ⟨k', hk', hk't⟩
        exact hd k' hk' t ⟨hkt, hk't⟩
      simp only [List.map_cons, List.sum_cons, List.any_cons, ih htl, step]

lemma decomposeStep_fst_length (s : List ℚ) (p : ℕ) :
    (decomposeStep s p).1.length = s.length := by
  unfold decomposeStep
  split
  · simp
  · simp [seasonalSeries]

lemma decomposeStep_snd_length (s : List ℚ) (p : ℕ) :
    (decomposeStep s p).2.length = s.length := by
  unfold decomposeStep
  split
  · simp
  · simp [seasonalSeries]

lemma decomposeStep_recon (s : List ℚ) (p : ℕ) (t : ℕ) (ht : t < s.length) :
    (decomposeStep s p).1.getD t 0 + (decomposeStep s p).2.getD t 0 =
      s.getD t 0 := by
  unfold decomposeStep
  split
  · rw [List.getD_eq_getElem _ _ (by simpa using ht), List.getElem_replicate]
    ring_nf
  · have hlen : (seasonalSeries p (seasonalProfile p
        (List.zipWith (· - ·) s (movingAvg p s))) s.length).length = s.length := by
      simp [seasonalSeries]
    have hzip : (List.zipWith (· - ·) s (seasonalSeries p (seasonalProfile p
        (List.zipWith (· - ·) s (movingAvg p s))) s.length)).length = s.length := by
      rw [List.length_zipWith, hlen, Nat.min_self]
    rw [List.getD_eq_getElem _ _ (by rw [hlen]; exact ht),
      List.getD_eq_getElem _ _ (by rw [hzip]; exact ht),
      List.getD_eq_getElem _ _ ht, List.getElem_zipWith]
    ring

lemma seasComps_snd_length (s : List ℚ) (ps : List ℕ) :
    (seasComps s ps).2.length = s.length := by
  induction ps generalizing s with
  | nil => rfl
  | cons p ps ih =>
      show (seasComps (decomposeStep s p).2 ps).2.length = s.length
      rw [ih, decomposeStep_snd_length]

lemma seasComps_recon (s : List ℚ) (ps : List ℕ) (t : ℕ) (ht : t < s.length) :
    ((seasComps s ps).1.map fun c => c.getD t 0).sum +
      (seasComps s ps).2.getD t 0 = s.getD t 0 := by
  induction ps generalizing s with
  | nil => simp [seasComps]
  | cons p ps ih =>
      have ht' : t < (decomposeStep s p).2.length := by
        rw [decomposeStep_snd_length]; exact ht
      show ((decomposeStep s p).1.getD t 0 +
          ((seasComps (decomposeStep s p).2 ps).1.map fun c => c.getD t 0).sum) +
          (seasComps (decomposeStep s p).2 ps).2.getD t 0 = s.getD t 0
      have hrec := ih (decomposeStep s p).2 ht'
      have hstep := decomposeStep_recon s p t ht
      linarith

lemma meanAbs_nonneg (xs : List ℚ) : 0 ≤ meanAbs xs := by
  unfold meanAbs mean
  apply div_nonneg
  · apply List.sum_nonneg
    intro x hx
    rcases List.mem_map.mp hx with ⟨y, _, rfl⟩
    exact abs_nonneg y
  · exact_mod_cast Nat.zero_le _

lemma from_addresses_two_mul_length (addrs : List Address) :
    2 * (Path.from_addresses addrs).length = addrs.length * (addrs.length - 1) := by
  induction addrs with
  | nil => rfl
  | cons a rest ih =>
      show 2 * ((rest.map fun b => Path.mk a b) ++
          Path.from_addresses rest).length =
        (rest.length + 1) * (rest.length + 1 - 1)
      rw [List.length_append, List.length_map, Nat.mul_add, ih,
        Nat.add_sub_cancel]
      cases rest with
      | nil => rfl
      | cons b rest' =>
          simp only [List.length_cons, Nat.add_sub_cancel]
          ring

/-- C4: for every Coordinate produced from a latitude/longitude pair within
the supported projection zone, `unproject(project(c))` reproduces the
original coordinate within 1 meter (the round trip of the pure
Geo-Projection functions is in fact exact over exact arithmetic). -/
theorem project_unproject_roundtrip (z : Zone) (lat lon : ℚ) (c : Coordinate)
    (hlat : z.mPerDegLat ≠ 0) (hlon : z.mPerDegLon ≠ 0)
    (h : project z lat lon = Except.ok c) :
    roundTripErrorMeters z lat lon c ≤ 1 := by
  unfold project at h
  split at h
  · rw [Except.ok.injEq] at h
    subst h
    unfold roundTripErrorMeters unproject
    have h1 : (lat - z.lat0) * z.mPerDegLat / z.mPerDegLat + z.lat0 - lat = 0 := by
      field_simp
    have h2 : (lon - z.lon0) * z.mPerDegLon / z.mPerDegLon + z.lon0 - lon = 0 := by
      field_simp
    simp only
    rw [h1, h2, zero_mul, zero_mul, abs_zero, add_zero]
    norm_num
  · exact absurd h (by simp)

/-- C4 witness: the round trip at a concrete in-zone latitude/longitude. -/
theorem project_unproject_roundtrip_witness :
    roundTripErrorMeters ⟨41, 52, 0, 6, 0, 3, 111320, 73200⟩ 48 2
      ⟨-73200, 5343360⟩ ≤ 1 :=
  project_unproject_roundtrip ⟨41, 52, 0, 6, 0, 3, 111320, 73200⟩ 48 2
    ⟨-73200, 5343360⟩ (by norm_num) (by norm_num) (by norm_num [project])

/-- C5: `aggregate` fails with a `ConfigurationError` exactly when the
bucket length does not evenly divide the operating day length implied by
the calendar; the failure is surfaced immediately (the error is the whole
result) and the bucket length is never silently corrected. -/
theorem aggregate_configuration_error (cfg : AggConfig) (orders : List ℕ) :
    aggregate cfg orders = Except.error CoreError.configurationError ↔
      ¬ cfg.bucketLength ∣ cfg.dayLength := by
  unfold aggregate
  by_cases h : cfg.bucketLength ∣ cfg.dayLength
  · rw [if_pos h]
    simp [h]
  · rw [if_neg h]
    simp [h]

/-- C8: a coordinate lying exactly on a cell boundary is assigned to the
higher-indexed cell (closed-open interval convention): a point on the shared
gridline of rows `r - 1` and `r` gets row `r`, and likewise for columns,
uniformly for every boundary point of every cell. -/
theorem grid_boundary_tiebreak (g : Grid) (c : Coordinate) (r k : ℤ)
    (hs : 0 < g.side) :
    (c.y - g.yMin = (r : ℚ) * g.side → (g.locate c).1 = r) ∧
    (c.x - g.xMin = (k : ℚ) * g.side → (g.locate c).2 = k) := by
  constructor
  · intro hy
    rw [Grid.locate_fst, hy, floor_intCast_mul_div hs]
  · intro hx
    rw [Grid.locate_snd, hx, floor_intCast_mul_div hs]

/-- C8 witness: the unit grid anchored at the origin locates the corner
point (2, 3) — which lies on the gridlines between rows 2/3 and columns
1/2 — in the higher-indexed cell (3, 2). -/
theorem grid_boundary_tiebreak_witness :
    (Grid.mk 0 0 1).locate ⟨2, 3⟩ = ((3 : ℤ), (2 : ℤ)) := by
  have h := grid_boundary_tiebreak ⟨0, 0, 1⟩ ⟨2, 3⟩ 3 2 (by norm_num)
  have h1 := h.1 (by norm_num)
  have h2 := h.2 (by norm_num)
  have hpair : (Grid.mk 0 0 1).locate ⟨2, 3⟩ =
      (((Grid.mk 0 0 1).locate ⟨2, 3⟩).1, ((Grid.mk 0 0 1).locate ⟨2, 3⟩).2) := rfl
  rw [hpair, h1, h2]

/-- C1: the Decomposition Result of `decompose(S, P)` satisfies the
reconstruction law — at every bucket, level plus the sum of all seasonal
components plus the residual equals the original series value, within
1e-6 absolute tolerance. -/
theorem decompose_reconstruction (s : List ℚ) (ps : List ℕ) (t : ℕ)
    (ht : t < s.length) :
    |(decompose s ps).level +
        ((decompose s ps).seasonals.map fun c => c.getD t 0).sum +
        (decompose s ps).residual.getD t 0 - s.getD t 0| ≤ 1 / 1000000 := by
  have hlen : (seasComps s ps).2.length = s.length := seasComps_snd_length s ps
  have hlevel : (decompose s ps).level = mean (seasComps s ps).2 := rfl
  have hseas : (decompose s ps).seasonals = (seasComps s ps).1 := rfl
  have hres : (decompose s ps).residual.getD t 0 =
      (seasComps s ps).2.getD t 0 - mean (seasComps s ps).2 := by
    show ((seasComps s ps).2.map fun x => x - mean (seasComps s ps).2).getD t 0 = _
    rw [List.getD_eq_getElem _ _ (by rw [List.length_map, hlen]; exact ht),
      List.getElem_map, List.getD_eq_getElem _ _ (by rw [hlen]; exact ht)]
  have hrec := seasComps_recon s ps t ht
  rw [hlevel, hseas, hres]
  have hzero : mean (seasComps s ps).2 +
      ((seasComps s ps).1.map fun c => c.getD t 0).sum +
      ((seasComps s ps).2.getD t 0 - mean (seasComps s ps).2) - s.getD t 0 = 0 := by
    linarith
  rw [hzero, abs_zero]
  norm_num

/-- C1 witness: the reconstruction law at bucket 0 of a concrete series
decomposed with periodicities [2]. -/
theorem decompose_reconstruction_witness :
    |(decompose [1, 2, 3, 4] [2]).level +
        ((decompose [1, 2, 3, 4] [2]).seasonals.map fun c => c.getD 0 0).sum +
        (decompose [1, 2, 3, 4] [2]).residual.getD 0 0 -
        ([1, 2, 3, 4] : List ℚ).getD 0 0| ≤ 1 / 1000000 :=
  decompose_reconstruction [1, 2, 3, 4] [2] 0 (by decide)

/-- C2: every successful `predict` call returns a triple with
`lower ≤ point ≤ upper` and a non-negative point forecast. -/
theorem predict_interval_valid (m : ModelState) (origin horizon : ℕ) (z : ℚ)
    (hz : 0 ≤ z) (point lower upper : ℚ)
    (h : predict m origin horizon z = Except.ok (point, lower, upper)) :
    lower ≤ point ∧ point ≤ upper ∧ 0 ≤ point := by
  unfold predict at h
  split at h
  · exact absurd h (by simp)
  · simp only [Except.ok.injEq, Prod.mk.injEq] at h
    obtain ⟨hp, hl, hu⟩ := h
    have hw : 0 ≤ z * meanAbs m.residuals := mul_nonneg hz (meanAbs_nonneg _)
    have hp0 : 0 ≤ point := by
      rw [← hp]
      exact le_max_right _ _
    refine ⟨?_, ?_, hp0⟩
    · rw [← hl, ← hp]
      linarith
    · rw [← hu, ← hp]
      linarith

/-- C2 witness: a concrete successful `predict` call. -/
theorem predict_interval_valid_witness :
    (7 : ℚ) ≤ 7 ∧ (7 : ℚ) ≤ 7 ∧ (0 : ℚ) ≤ 7 :=
  predict_interval_valid ⟨[0, 0, 0, 0], 2, 5, [1, 2], [0, 0, 0, 0]⟩ 0 1 1
    (by norm_num) 7 7 7 (by norm_num [predict, meanAbs, mean])

/-- C6: `predict` fails with an `InsufficientHistoryError` whenever the
fitted series does not cover enough history (two full cycles) for the
needed seasonal periodicity, and then no forecast triple is returned at
all — in particular the result is never silently defaulted to zero. -/
theorem predict_insufficient_history (m : ModelState) (origin horizon : ℕ)
    (z : ℚ) (h : m.history.length < 2 * m.periodicity) :
    predict m origin horizon z =
        Except.error CoreError.insufficientHistoryError ∧
      ∀ point lower upper : ℚ,
        predict m origin horizon z ≠ Except.ok (point, lower, upper) := by
  have he : predict m origin horizon z =
      Except.error CoreError.insufficientHistoryError := by
    unfold predict
    rw [if_pos (Or.inl h)]
  refine ⟨he, fun point lower upper hok => ?_⟩
  rw [he] at hok
  exact absurd hok (by simp)

/-- C6 witness: a model fitted on two buckets cannot serve a daily-cycle
periodicity of two (two full cycles would need four buckets). -/
theorem predict_insufficient_history_witness :
    predict ⟨[1, 2], 2, 0, [], []⟩ 0 1 1 =
        Except.error CoreError.insufficientHistoryError ∧
      ∀ point lower upper : ℚ,
        predict ⟨[1, 2], 2, 0, [], []⟩ 0 1 1 ≠
          Except.ok (point, lower, upper) :=
  predict_insufficient_history ⟨[1, 2], 2, 0, [], []⟩ 0 1 1 (by decide)

/-- Helper: the buckets of a well-configured date range are pairwise
disjoint in time. -/
lemma bucketStarts_pairwise_disjoint (cfg : AggConfig)
    (hdvd : cfg.bucketLength ∣ cfg.dayLength)
    (hday : cfg.dayLength ≤ minutesPerDay) :
    cfg.bucketStarts.Pairwise fun s1 s2 =>
      ∀ t, ¬(cfg.inBucket s1 t = true ∧ cfg.inBucket s2 t = true) := by
  refine List.Pairwise.map cfg.bucketStart ?_ (List.pairwise_lt_range _)
  intro i j hij t ⟨h1, h2⟩
  have hgap := bucketStart_gap cfg hdvd hday hij
  rw [AggConfig.inBucket, decide_eq_true_iff] at h1 h2
  omega

/-- C3: for a well-configured date range covering B buckets, `aggregate`
succeeds with a series of exactly B entries — every bucket in range is
present, zero-filled when it received no orders — and the series counts sum
to the number of raw orders falling into the range. -/
theorem aggregate_covers_range (cfg : AggConfig) (orders : List ℕ)
    (hdvd : cfg.bucketLength ∣ cfg.dayLength)
    (hday : cfg.dayLength ≤ minutesPerDay) :
    ∃ series : List (ℕ × ℕ),
      aggregate cfg orders = Except.ok series ∧
      series.length = cfg.numBuckets ∧
      (series.map Prod.snd).sum = (orders.filter cfg.inDateRange).length := by
  refine ⟨_, by rw [aggregate, if_pos hdvd], ?_, ?_⟩
  · rw [List.length_map, AggConfig.bucketStarts, List.length_map,
      List.length_range]
  · have hmm : ((cfg.bucketStarts.map fun s =>
        (s, (orders.filter fun t => cfg.inBucket s t).length)).map Prod.snd) =
        cfg.bucketStarts.map fun s =>
          (orders.filter fun t => cfg.inBucket s t).length := by
      rw [List.map_map]
      rfl
    rw [hmm]
    have hsum := sum_counts_eq_length_filter_any cfg.bucketStarts orders
      (fun s t => cfg.inBucket s t)
      (bucketStarts_pairwise_disjoint cfg hdvd hday)
    rw [hsum]
    rfl

/-- C3 witness: one operating day of 4 minutes in two 2-minute buckets;
three of the four raw orders fall into the range. -/
theorem aggregate_covers_range_witness :
    ∃ series : List (ℕ × ℕ),
      aggregate ⟨0, 1, 0, 4, 2⟩ [0, 1, 5, 2] = Except.ok series ∧
      series.length = AggConfig.numBuckets ⟨0, 1, 0, 4, 2⟩ ∧
      (series.map Prod.snd).sum =
        ([0, 1, 5, 2].filter (AggConfig.inDateRange ⟨0, 1, 0, 4, 2⟩)).length :=
  aggregate_covers_range ⟨0, 1, 0, 4, 2⟩ [0, 1, 5, 2] (by decide) (by decide)

/-- C7: a pixel is present in the index if and only if at least one input
location maps into its cell; no materialized cell is empty; and the
neighbor lookup — the only other operation on the index — only ever
produces pixels present in the index, preserving the invariant. -/
theorem pixel_index_invariant (g : Grid) (locs : List (ℕ × Coordinate)) :
    (∀ k : ℤ × ℤ,
      k ∈ (buildIndex g locs).keys ↔ ∃ l ∈ locs, g.locate l.2 = k) ∧
    (∀ c ∈ (buildIndex g locs).cells, c.2 ≠ []) ∧
    (∀ key k : ℤ × ℤ, k ∈ (buildIndex g locs).neighbors key →
      k ∈ (buildIndex g locs).keys) := by
  refine ⟨fun k => buildCells_keys_mem g locs k,
    fun c hc => buildCells_nonempty g locs c hc, ?_⟩
  intro key k hk
  unfold PixelIndex.neighbors at hk
  rcases List.mem_filterMap.mp hk with ⟨d, _, hd⟩
  dsimp only at hd
  split at hd
  · rename_i hin
    injection hd with hd'
    subst hd'
    exact hin
  · exact absurd hd (by simp)

/-- C9: gridification assigns only pickup (restaurant) locations into
pixels: an identifier is assigned to a pixel if and only if it is the
identifier of some restaurant pickup address, customer delivery addresses
contribute nothing, and the number of assigned identifiers equals the
number of pickup addresses — which can be far smaller than the city's
total address count. -/
theorem gridify_only_pickup (g : Grid) (addrs : List Address) :
    (∀ i : ℕ, i ∈ (gridify g addrs).assignedIds ↔
      ∃ a ∈ addrs, a.ident = i ∧ a.role = AddressRole.restaurantPickup) ∧
    (gridify g addrs).assignedIds.length =
      (addrs.filter Address.isPickup).length ∧
    (gridify g addrs).assignedIds.length ≤ addrs.length := by
  have hids : ∀ i : ℕ, i ∈ (gridify g addrs).assignedIds ↔
      ∃ a ∈ addrs, a.ident = i ∧ a.role = AddressRole.restaurantPickup := by
    intro i
    rw [show (gridify g addrs).assignedIds =
      ((buildCells g ((addrs.filter Address.isPickup).map fun a =>
        (a.ident, a.coord))).map Prod.snd).flatten from rfl]
    rw [buildCells_ids_mem]
    constructor
    · rintro ⟨l, hl, hid⟩
      rcases List.mem_map.mp hl with ⟨a, ha, rfl⟩
      rcases List.mem_filter.mp ha with ⟨hmem, hrole⟩
      rw [Address.isPickup, beq_iff_eq] at hrole
      exact ⟨a, hmem, hid, hrole⟩
    · rintro ⟨a, hmem, hid, hrole⟩
      refine ⟨(a.ident, a.coord), List.mem_map.mpr ⟨a, ?_, rfl⟩, hid⟩
      exact List.mem_filter.mpr ⟨hmem, by rw [Address.isPickup, beq_iff_eq, hrole]⟩
  have hcount : (gridify g addrs).assignedIds.length =
      (addrs.filter Address.isPickup).length := by
    rw [show (gridify g addrs).assignedIds =
      ((buildCells g ((addrs.filter Address.isPickup).map fun a =>
        (a.ident, a.coord))).map Prod.snd).flatten from rfl]
    rw [buildCells_ids_length, List.length_map]
  refine ⟨hids, hcount, ?_⟩
  rw [hcount]
  exact List.length_filter_le _ _

/-- Helper: every path produced by `Path.from_addresses` has both of its
endpoints among the input addresses. -/
lemma from_addresses_endpoints (addrs : List Address) (p : Path)
    (hp : p ∈ Path.from_addresses addrs) :
    p.first_address ∈ addrs ∧ p.second_address ∈ addrs := by
  induction addrs with
  | nil => cases hp
  | cons a rest ih =>
      rcases List.mem_append.mp hp with hmap | hrec
      · rcases List.mem_map.mp hmap with ⟨b, hb, rfl⟩
        exact ⟨List.mem_cons_self _ _, List.mem_cons_of_mem _ hb⟩
      · rcases ih hrec with ⟨h1, h2⟩
        exact ⟨List.mem_cons_of_mem _ h1, List.mem_cons_of_mem _ h2⟩

/-- Helper: among the paths of a duplicate-free address list, exactly one
connects each unordered pair of distinct addresses. -/
lemma from_addresses_count_pair (addrs : List Address) (h : addrs.Nodup)
    (a b : Address) (ha : a ∈ addrs) (hb : b ∈ addrs) (hab : a ≠ b) :
    ((Path.from_addresses addrs).filter fun p => p.connects a b).length = 1 := by
  induction addrs with
  | nil => cases ha
  | cons x rest ih =>
      rcases List.nodup_cons.mp h with ⟨hx, hrest⟩
      show (((rest.map fun c => Path.mk x c) ++
        Path.from_addresses rest).filter fun p => p.connects a b).length = 1
      rw [List.filter_append, List.length_append, List.filter_map,
        List.length_map]
      have hrest0 : a = x ∨ b = x →
          ((Path.from_addresses rest).filter fun p => p.connects a b) = [] := by
        intro hax
        refine List.filter_eq_nil_iff.mpr fun p hp hconn => ?_
        rcases from_addresses_endpoints rest p hp with ⟨h1, h2⟩
        simp only [Path.connects, Bool.or_eq_true, Bool.and_eq_true,
          beq_iff_eq] at hconn
        rcases hax with hax | hbx
        · rcases hconn with ⟨hf, _⟩ | ⟨_, hs⟩
          · exact hx (by rw [← hax, ← hf]; exact h1)
          · exact hx (by rw [← hax, ← hs]; exact h2)
        · rcases hconn with ⟨_, hs⟩ | ⟨hf, _⟩
          · exact hx (by rw [← hbx, ← hs]; exact h2)
          · exact hx (by rw [← hbx, ← hf]; exact h1)
      by_cases hax : a = x
      · have hbx : ¬b = x := fun hbx => hab (hax.trans hbx.symm)
        have hb' : b ∈ rest := by
          rcases List.mem_cons.mp hb with hbx' | hb'
          · exact absurd hbx' hbx
          · exact hb'
        have hxb : (x == b) = false :=
          beq_eq_false_iff_ne.mpr fun hxb => hbx (hxb.symm)
        have hfil : (rest.filter fun c =>
            ((fun p => Path.connects p a b) ∘ fun c => Path.mk x c) c) =
            rest.filter fun c => c == b := by
          refine List.filter_congr fun c hc => ?_
          simp [Function.comp, Path.connects, hax, hxb]
        rw [hfil, hrest0 (Or.inl hax), List.length_nil, Nat.add_zero,
          ← List.countP_eq_length_filter]
        exact List.count_eq_one_of_mem hrest hb'
      · by_cases hbx : b = x
        · have ha' : a ∈ rest := by
            rcases List.mem_cons.mp ha with hax' | ha'
            · exact absurd hax' hax
            · exact ha'
          have hxa : (x == a) = false :=
            beq_eq_false_iff_ne.mpr fun hxa => hax (hxa.symm)
          have hfil : (rest.filter fun c =>
              ((fun p => Path.connects p a b) ∘ fun c => Path.mk x c) c) =
              rest.filter fun c => c == a := by
            refine List.filter_congr fun c hc => ?_
            simp [Function.comp, Path.connects, hbx, hxa]
          rw [hfil, hrest0 (Or.inr hbx), List.length_nil, Nat.add_zero,
            ← List.countP_eq_length_filter]
          exact List.count_eq_one_of_mem hrest ha'
        · have ha' : a ∈ rest := by
            rcases List.mem_cons.mp ha with hax' | ha'
            · exact absurd hax' hax
            · exact ha'
          have hb' : b ∈ rest := by
            rcases List.mem_cons.mp hb with hbx' | hb'
            · exact absurd hbx' hbx
            · exact hb'
          have hxa : (x == a) = false :=
            beq_eq_false_iff_ne.mpr fun hxa => hax (hxa.symm)
          have hxb : (x == b) = false :=
            beq_eq_false_iff_ne.mpr fun hxb => hbx (hxb.symm)
          have hfil : (rest.filter fun c =>
              ((fun p => Path.connects p a b) ∘ fun c => Path.mk x c) c) = [] := by
            refine List.filter_eq_nil_iff.mpr fun c hc => ?_
            simp [Function.comp, Path.connects, hxa, hxb]
          rw [hfil, List.length_nil, Nat.zero_add]
          exact ih hrest ha' hb'

/-- C10: `Path.from_addresses`, applied to n distinct Address objects,
returns exactly one Path per unordered pair of distinct addresses —
n(n-1)/2 paths in total, and exactly one path connecting each pair in
either endpoint order, the endpoints being stored as first and second
address regardless of restaurant/customer role. -/
theorem from_addresses_pairs (addrs : List Address) (h : addrs.Nodup) :
    (Path.from_addresses addrs).length =
        addrs.length * (addrs.length - 1) / 2 ∧
      ∀ a b : Address, a ∈ addrs → b ∈ addrs → a ≠ b →
        ((Path.from_addresses addrs).filter fun p =>
          p.connects a b).length = 1 := by
  constructor
  · have h2 := from_addresses_two_mul_length addrs
    omega
  · exact fun a b ha hb hab => from_addresses_count_pair addrs h a b ha hb hab

/-- C10 witness: two distinct addresses — one restaurant, one customer —
yield exactly one path (2·1/2 = 1). -/
theorem from_addresses_pairs_witness :
    (Path.from_addresses [⟨0, AddressRole.restaurantPickup, ⟨0, 0⟩⟩,
          ⟨1, AddressRole.customerDelivery, ⟨1, 1⟩⟩]).length =
        ([⟨0, AddressRole.restaurantPickup, ⟨0, 0⟩⟩,
          ⟨1, AddressRole.customerDelivery, ⟨1, 1⟩⟩] : List Address).length *
          (([⟨0, AddressRole.restaurantPickup, ⟨0, 0⟩⟩,
            ⟨1, AddressRole.customerDelivery, ⟨1, 1⟩⟩] : List Address).length
            - 1) / 2 ∧
      ∀ a b : Address,
        a ∈ [⟨0, AddressRole.restaurantPickup, ⟨0, 0⟩⟩,
          ⟨1, AddressRole.customerDelivery, ⟨1, 1⟩⟩] →
        b ∈ [⟨0, AddressRole.restaurantPickup, ⟨0, 0⟩⟩,
          ⟨1, AddressRole.customerDelivery, ⟨1, 1⟩⟩] →
        a ≠ b →
        ((Path.from_addresses [⟨0, AddressRole.restaurantPickup, ⟨0, 0⟩⟩,
          ⟨1, AddressRole.customerDelivery, ⟨1, 1⟩⟩]).filter fun p =>
            p.connects a b).length = 1 :=
  from_addresses_pairs [⟨0, AddressRole.restaurantPickup, ⟨0, 0⟩⟩,
    ⟨1, AddressRole.customerDelivery, ⟨1, 1⟩⟩] (by decide)

end UrbanMealDelivery
